import Mathlib

/-!
# Verification of the Body-Data pipeline (`src/index.ts`)

This file embeds the three operations of the repository —
`toWebRequest` (request normalization), `getParams` (query-parameter
extraction) and `getBody` (content-type-driven body parsing) — as
executable Lean definitions, together with models of the platform
primitives they invoke (`Request` construction, the WHATWG URL parser,
`URLSearchParams`, `TextDecoder`, `JSON.parse`).

Platform modelling notes (the platform is external to the repository, so
it is modelled, faithfully on the fragment the code exercises):

* URLs: the model parser handles absolute `http://` / `https://` URLs,
  splitting host, path, query and fragment at the standard delimiter
  characters.  It performs no percent-(re)encoding and no host/path
  normalization, so serialization is the identity on accepted inputs.
* `Request` construction: parses the URL eagerly (throwing `TypeError`
  on failure), validates the method (token check, forbidden-method
  check, byte-uppercase normalization of the six standard methods) and
  rejects a non-null body on a method that normalizes to GET/HEAD.
  Header-value validation is not modelled.
* `TextDecoder`: only the UTF-8 labels are modelled as constructible;
  any other label is modelled as a construction failure (`RangeError`).
  Decoding uses UTF-8 with U+FFFD replacement and never throws.
* `JSON.parse` is modelled by a fuel-indexed recursive-descent parser of
  the JSON grammar; numeric literals are kept as source text (IEEE-754
  conversion is irrelevant to every property proved here).  Lone
  surrogates in `\u` escapes are replaced by U+FFFD.
-/

/-- A JavaScript runtime value, as far as the pipeline can produce one:
the results of `JSON.parse`, the wrapped records `{raw: s}` / `{text: s}`,
flat string maps, and the empty object. Object fields are kept in
insertion order with unique keys (JS object semantics). Numeric literals
are kept as their source text. -/
inductive JSVal where
  | null : JSVal
  | bool (b : Bool) : JSVal
  | num (lit : String) : JSVal
  | str (s : String) : JSVal
  | arr (elems : List JSVal) : JSVal
  | obj (fields : List (String × JSVal)) : JSVal
deriving Repr, Inhabited

/-- Discriminator for the object shape of a JS value. -/
def JSVal.isObj : JSVal → Bool
  | .obj _ => true
  | _ => false

/-- The kinds of errors the pipeline can raise: `TypeError` (URL /
`Request` constructor failures), `RangeError` (`TextDecoder` label
failures), `SyntaxError` (`JSON.parse` failures) and stream failures
surfaced while draining a body. -/
inductive JSError where
  | typeError (msg : String) : JSError
  | rangeError (msg : String) : JSError
  | syntaxError (msg : String) : JSError
  | streamError (msg : String) : JSError
deriving Repr, DecidableEq, Inhabited

/-- JS object field assignment `o[k] = v` on an entry list: overwrites
in place on an existing key (keeping the key's original position),
appends otherwise. -/
def setEntry {α : Type} : List (String × α) → String → α → List (String × α)
  | [], k, v => [(k, v)]
  | (k', v') :: t, k, v =>
    if k' = k then (k', v) :: t else (k', v') :: setEntry t k v

/-- JS object field lookup `o[k]` on an entry list (first match; entry
lists built by `setEntry` have unique keys). -/
def getEntry {α : Type} : List (String × α) → String → Option α
  | [], _ => none
  | (k', v) :: t, k => if k' = k then some v else getEntry t k

/-- `Object.fromEntries`: fold a pair sequence into a JS object's entry
list — later pairs overwrite earlier ones (last-value-wins), keys keep
their first-insertion position. -/
def objFromEntries {α : Type} (ps : List (String × α)) : List (String × α) :=
  ps.foldl (fun acc p => setEntry acc p.1 p.2) []

/-- The value the LAST pair with the given key carries, if any.
This is the spec's phrase "last-value-wins on duplicate keys" written
directly as a recursive definition, used as the comparison target for
the `objFromEntries` behaviour. -/
def lastVal : List (String × String) → String → Option String
  | [], _ => none
  | (k', v) :: t, k =>
    match lastVal t k with
    | some w => some w
    | none => if k' = k then some v else none

/-! ## UTF-8 encoding and decoding (model of `TextDecoder` / the
urlencoded byte decoder) -/

/-- UTF-8 encoding of a single scalar value (standard 1–4 byte forms). -/
def utf8EncodeChar (c : Char) : List Nat :=
  let n := c.toNat
  if n < 0x80 then [n]
  else if n < 0x800 then [0xC0 + n / 64, 0x80 + n % 64]
  else if n < 0x10000 then [0xE0 + n / 4096, 0x80 + (n / 64) % 64, 0x80 + n % 64]
  else [0xF0 + n / 262144, 0x80 + (n / 4096) % 64, 0x80 + (n / 64) % 64, 0x80 + n % 64]

/-- Concatenation of byte chunks. -/
def concatBytes : List (List Nat) → List Nat
  | [] => []
  | l :: ls => l ++ concatBytes ls

/-- UTF-8 encoding of a string. -/
def strToBytes (s : String) : List Nat :=
  concatBytes (s.data.map utf8EncodeChar)

/-- The U+FFFD replacement character. -/
def replChar : Char := Char.ofNat 0xFFFD

/-- Is `b` a UTF-8 continuation byte? -/
def isCont (b : Nat) : Bool := 0x80 ≤ b && b ≤ 0xBF

/-- UTF-8 decoding with U+FFFD replacement, following the WHATWG
decoder: malformed prefixes emit one replacement character and
resynchronize without consuming the offending byte. Never fails. -/
def utf8Decode : List Nat → List Char
  | [] => []
  | b :: bs =>
    if b < 0x80 then Char.ofNat b :: utf8Decode bs
    else if 0xC2 ≤ b && b ≤ 0xDF then
      match bs with
      | [] => [replChar]
      | b2 :: bs2 =>
        if isCont b2 then Char.ofNat ((b % 32) * 64 + b2 % 64) :: utf8Decode bs2
        else replChar :: utf8Decode (b2 :: bs2)
    else if 0xE0 ≤ b && b ≤ 0xEF then
      match bs with
      | [] => [replChar]
      | b2 :: bs2 =>
        if (b = 0xE0 && 0xA0 ≤ b2 && b2 ≤ 0xBF)
            || (b = 0xED && 0x80 ≤ b2 && b2 ≤ 0x9F)
            || (b ≠ 0xE0 && b ≠ 0xED && isCont b2) then
          match bs2 with
          | [] => [replChar]
          | b3 :: bs3 =>
            if isCont b3 then
              Char.ofNat ((b % 16) * 4096 + (b2 % 64) * 64 + b3 % 64) :: utf8Decode bs3
            else replChar :: utf8Decode (b3 :: bs3)
        else replChar :: utf8Decode (b2 :: bs2)
    else if 0xF0 ≤ b && b ≤ 0xF4 then
      match bs with
      | [] => [replChar]
      | b2 :: bs2 =>
        if (b = 0xF0 && 0x90 ≤ b2 && b2 ≤ 0xBF)
            || (b = 0xF4 && 0x80 ≤ b2 && b2 ≤ 0x8F)
            || (b ≠ 0xF0 && b ≠ 0xF4 && isCont b2) then
          match bs2 with
          | [] => [replChar]
          | b3 :: bs3 =>
            if isCont b3 then
              match bs3 with
              | [] => [replChar]
              | b4 :: bs4 =>
                if isCont b4 then
                  Char.ofNat ((b % 8) * 262144 + (b2 % 64) * 4096 + (b3 % 64) * 64 + b4 % 64)
                    :: utf8Decode bs4
                else replChar :: utf8Decode (b4 :: bs4)
            else replChar :: utf8Decode (b3 :: bs3)
        else replChar :: utf8Decode (b2 :: bs2)
    else replChar :: utf8Decode bs

/-- Bytes to string via UTF-8 replacement decoding. -/
def utf8DecodeStr (bs : List Nat) : String := String.mk (utf8Decode bs)

/-! ## urlencoded parsing (model of `URLSearchParams`) -/

/-- Value of a hexadecimal digit character. -/
def hexDigit (c : Char) : Option Nat :=
  if '0' ≤ c && c ≤ '9' then some (c.toNat - '0'.toNat)
  else if 'A' ≤ c && c ≤ 'F' then some (c.toNat - 'A'.toNat + 10)
  else if 'a' ≤ c && c ≤ 'f' then some (c.toNat - 'a'.toNat + 10)
  else none

/-- Percent-decoding on a byte sequence: `%XY` with two hex digits
becomes one byte, anything else is copied verbatim. -/
def percentDecode : List Nat → List Nat
  | 0x25 :: h1 :: h2 :: rest =>
    match hexDigit (Char.ofNat h1), hexDigit (Char.ofNat h2) with
    | some a, some b => (a * 16 + b) :: percentDecode rest
    | _, _ => 0x25 :: percentDecode (h1 :: h2 :: rest)
  | b :: rest => b :: percentDecode rest
  | [] => []

/-- WHATWG urlencoded component decoding: `+` becomes space, then the
component is percent-decoded bytewise and UTF-8 decoded. -/
def decodeComponent (cs : List Char) : String :=
  utf8DecodeStr (percentDecode (strToBytes (String.mk
    (cs.map (fun c => if c = '+' then ' ' else c)))))

/-- Split a character sequence on `&` (the urlencoded pair separator). -/
def splitAmp : List Char → List (List Char)
  | [] => [[]]
  | c :: rest =>
    match splitAmp rest with
    | g :: gs => if c = '&' then [] :: g :: gs else (c :: g) :: gs
    | [] => [[c]]

/-- The `application/x-www-form-urlencoded` parser behind
`URLSearchParams`: split on `&`, skip empty segments, split each
segment at its first `=` (absent `=` means empty value), decode name
and value. Pairs are produced in source order. -/
def parseQSChars (cs : List Char) : List (String × String) :=
  (splitAmp cs).filterMap (fun seg =>
    if seg = [] then none
    else
      let name := seg.takeWhile (fun c => !(c = '='))
      let value :=
        match seg.dropWhile (fun c => !(c = '=')) with
        | _ :: v => v
        | [] => []
      some (decodeComponent name, decodeComponent value))

/-! ## URL model (WHATWG URL parser, restricted as documented above) -/

/-- May a character occur in the host chunk? (The host ends at the
first `/`, `?` or `#`.) -/
def hostChar (c : Char) : Bool := !(c = '/' || c = '?' || c = '#')

/-- May a character occur in the path chunk? (The path ends at the
first `?` or `#`.) -/
def pathChar (c : Char) : Bool := !(c = '?' || c = '#')

/-- May a character occur in the query chunk? (The query ends at the
first `#`.) -/
def queryChar (c : Char) : Bool := !(c = '#')

/-- A parsed URL: scheme, host (with any port text), path, optional
query (without its `?`), optional fragment (without its `#`). -/
structure URLRec where
  scheme : String
  host : List Char
  path : List Char
  query : Option (List Char)
  frag : Option (List Char)
deriving Repr, DecidableEq

/-- Strip a recognized scheme head (`http://` or `https://`). -/
def stripScheme : List Char → Option (String × List Char)
  | 'h' :: 't' :: 't' :: 'p' :: 's' :: ':' :: '/' :: '/' :: rest => some ("https", rest)
  | 'h' :: 't' :: 't' :: 'p' :: ':' :: '/' :: '/' :: rest => some ("http", rest)
  | _ => none

/-- Split everything after the host into path, query and fragment. -/
def parseAfterHost (rest : List Char) : List Char × Option (List Char) × Option (List Char) :=
  let path := rest.takeWhile pathChar
  match rest.dropWhile pathChar with
  | '?' :: qs =>
    (path, some (qs.takeWhile queryChar),
      match qs.dropWhile queryChar with
      | '#' :: fs => some fs
      | _ => none)
  | '#' :: fs => (path, none, some fs)
  | _ => (path, none, none)

/-- The URL parser: scheme head, non-empty host up to a delimiter, then
path / query / fragment. Returns `none` (platform: throws `TypeError`)
when the scheme head is unrecognized or the host is empty. -/
def parseURLChars (cs : List Char) : Option URLRec :=
  match stripScheme cs with
  | none => none
  | some (sch, rest) =>
    let host := rest.takeWhile hostChar
    if host = [] then none
    else
      let (path, q, f) := parseAfterHost (rest.dropWhile hostChar)
      some ⟨sch, host, path, q, f⟩

/-- URL serialization (`href`): scheme, `://`, host, path, `?query` and
`#fragment` when present. -/
def serializeURLChars (u : URLRec) : List Char :=
  u.scheme.data ++ ':' :: '/' :: '/' :: [] ++ u.host ++ u.path
    ++ (match u.query with
        | some q => '?' :: q
        | none => [])
    ++ (match u.frag with
        | some f => '#' :: f
        | none => [])

/-- String-level URL parse. -/
def parseURL (s : String) : Option URLRec := parseURLChars s.data

/-- String-level URL serialization. -/
def serializeURL (u : URLRec) : String := String.mk (serializeURLChars u)

/-- The pair list iterated by `url.searchParams`: the urlencoded parse
of the query component (empty when the URL has no query). -/
def searchParamsList (u : URLRec) : List (String × String) :=
  parseQSChars (u.query.getD [])

/-- The query component of a scheme-less request path: everything
after the first `?` and before any `#`; `none` when `?` never occurs
before the path ends. This definition follows the spec's words ("the
query component of the original relative path") and serves as the
comparison target for claim C4. -/
def queryOfPathChars (v : List Char) : Option (List Char) :=
  match v.dropWhile pathChar with
  | '?' :: qs => some (qs.takeWhile queryChar)
  | _ => none

/-! ## JSON (model of `JSON.parse`) -/

/-- The left-brace character, by code point. -/
def lbrace : Char := Char.ofNat 0x7B

/-- The right-brace character, by code point. -/
def rbrace : Char := Char.ofNat 0x7D

/-- JSON insignificant whitespace. -/
def jsonWs (c : Char) : Bool := c = ' ' || c = '\t' || c = '\n' || c = Char.ofNat 13

/-- Skip JSON whitespace. -/
def skipWs (cs : List Char) : List Char := cs.dropWhile jsonWs

/-- The single-character JSON string escapes. -/
def escSimple (e : Char) : Option Char :=
  if e = '"' then some '"'
  else if e = '\\' then some '\\'
  else if e = '/' then some '/'
  else if e = 'b' then some (Char.ofNat 8)
  else if e = 'f' then some (Char.ofNat 12)
  else if e = 'n' then some '\n'
  else if e = 'r' then some (Char.ofNat 13)
  else if e = 't' then some '\t'
  else none

/-- Push a character onto a string-parse result. -/
def consStr (c : Char) (res : Except JSError (List Char × List Char)) :
    Except JSError (List Char × List Char) :=
  match res with
  | .error e => .error e
  | .ok (s, r) => .ok (c :: s, r)

/-- Parse the remainder of a JSON string (the opening quote already
consumed): contents and the input after the closing quote. Handles the
simple escapes and `\uXXXX` (surrogate pairs combined, lone surrogates
replaced by U+FFFD), and rejects raw control characters. The fuel is
an upper bound on the input length, so the out-of-fuel case is never
reached when called through `parseJStr`. -/
def parseJStrF : Nat → List Char → Except JSError (List Char × List Char)
  | 0, _ => .error (.syntaxError "Unterminated string in JSON")
  | _, [] => .error (.syntaxError "Unterminated string in JSON")
  | fuel + 1, c :: rest =>
    if c = '"' then .ok ([], rest)
    else if c = '\\' then
      match rest with
      | [] => .error (.syntaxError "Unterminated string in JSON")
      | 'u' :: h1 :: h2 :: h3 :: h4 :: r3 =>
        match hexDigit h1, hexDigit h2, hexDigit h3, hexDigit h4 with
        | some a, some b, some c3, some d =>
          let n := ((a * 16 + b) * 16 + c3) * 16 + d
          if 0xD800 ≤ n && n ≤ 0xDBFF then
            match r3 with
            | '\\' :: 'u' :: g1 :: g2 :: g3 :: g4 :: r4 =>
              match hexDigit g1, hexDigit g2, hexDigit g3, hexDigit g4 with
              | some p1, some p2, some p3, some p4 =>
                let m := ((p1 * 16 + p2) * 16 + p3) * 16 + p4
                if 0xDC00 ≤ m && m ≤ 0xDFFF then
                  consStr (Char.ofNat (0x10000 + (n - 0xD800) * 1024 + (m - 0xDC00)))
                    (parseJStrF fuel r4)
                else consStr replChar (parseJStrF fuel r3)
              | _, _, _, _ => consStr replChar (parseJStrF fuel r3)
            | _ => consStr replChar (parseJStrF fuel r3)
          else if 0xDC00 ≤ n && n ≤ 0xDFFF then consStr replChar (parseJStrF fuel r3)
          else consStr (Char.ofNat n) (parseJStrF fuel r3)
        | _, _, _, _ => .error (.syntaxError "Bad Unicode escape in JSON")
      | e :: r2 =>
        match escSimple e with
        | some c2 => consStr c2 (parseJStrF fuel r2)
        | none => .error (.syntaxError "Bad escaped character in JSON")
    else if c.toNat < 0x20 then .error (.syntaxError "Bad control character in JSON")
    else consStr c (parseJStrF fuel rest)

/-- Parse the remainder of a JSON string with ample fuel. -/
def parseJStr (cs : List Char) : Except JSError (List Char × List Char) :=
  parseJStrF (cs.length + 1) cs

/-- Parse the fraction part of a JSON number, if present. -/
def parseFrac : List Char → Except JSError (List Char × List Char)
  | '.' :: rest =>
    let ds := rest.takeWhile Char.isDigit
    if ds = [] then .error (.syntaxError "Bad number in JSON")
    else .ok ('.' :: ds, rest.dropWhile Char.isDigit)
  | cs => .ok ([], cs)

/-- Parse the exponent part of a JSON number, if present. -/
def parseJExp : List Char → Except JSError (List Char × List Char)
  | [] => .ok ([], [])
  | e :: rest =>
    if e = 'e' || e = 'E' then
      let (sgn, r1) : List Char × List Char :=
        match rest with
        | '+' :: r => (['+'], r)
        | '-' :: r => (['-'], r)
        | r => ([], r)
      let ds := r1.takeWhile Char.isDigit
      if ds = [] then .error (.syntaxError "Bad number in JSON")
      else .ok (e :: (sgn ++ ds), r1.dropWhile Char.isDigit)
    else .ok ([], e :: rest)

/-- Parse a JSON number starting at the given input; yields the
numeric literal's source text (IEEE-754 conversion is not modelled). -/
def parseJNum (cs : List Char) : Except JSError (String × List Char) :=
  let (sgn, r1) : List Char × List Char :=
    match cs with
    | '-' :: r => (['-'], r)
    | r => ([], r)
  match r1 with
  | c :: _ =>
    if c.isDigit then
      let (ip, r2) : List Char × List Char :=
        if c = '0' then (['0'], r1.tail)
        else (r1.takeWhile Char.isDigit, r1.dropWhile Char.isDigit)
      match parseFrac r2 with
      | .error e => .error e
      | .ok (fp, r3) =>
        match parseJExp r3 with
        | .error e => .error e
        | .ok (ep, r4) => .ok (String.mk (sgn ++ ip ++ fp ++ ep), r4)
    else .error (.syntaxError "Unexpected token in JSON")
  | [] => .error (.syntaxError "Unexpected end of JSON input")

mutual

/-- Parse one JSON value; `fuel` bounds the recursion depth and is
chosen large enough by `jsonParse` that it never runs out. -/
def parseJVal : Nat → List Char → Except JSError (JSVal × List Char)
  | 0, _ => .error (.syntaxError "JSON recursion depth exhausted")
  | fuel + 1, cs =>
    match skipWs cs with
    | 'n' :: 'u' :: 'l' :: 'l' :: r => .ok (.null, r)
    | 't' :: 'r' :: 'u' :: 'e' :: r => .ok (.bool true, r)
    | 'f' :: 'a' :: 'l' :: 's' :: 'e' :: r => .ok (.bool false, r)
    | '"' :: r =>
      match parseJStr r with
      | .error e => .error e
      | .ok (s, r2) => .ok (.str (String.mk s), r2)
    | '[' :: r =>
      match skipWs r with
      | ']' :: r2 => .ok (.arr [], r2)
      | r1 => parseJElems fuel r1 []
    | c :: r =>
      if c = lbrace then
        match skipWs r with
        | [] => .error (.syntaxError "Unexpected end of JSON input")
        | c2 :: r2 =>
          if c2 = rbrace then .ok (.obj [], r2)
          else parseJMembers fuel (c2 :: r2) []
      else if c = '-' || c.isDigit then
        match parseJNum (c :: r) with
        | .error e => .error e
        | .ok (lit, r2) => .ok (.num lit, r2)
      else .error (.syntaxError "Unexpected token in JSON")
    | [] => .error (.syntaxError "Unexpected end of JSON input")

/-- Parse the elements of a JSON array (after the first element's
start), accumulating in order. -/
def parseJElems : Nat → List Char → List JSVal → Except JSError (JSVal × List Char)
  | 0, _, _ => .error (.syntaxError "JSON recursion depth exhausted")
  | fuel + 1, cs, acc =>
    match parseJVal fuel cs with
    | .error e => .error e
    | .ok (v, r) =>
      match skipWs r with
      | ',' :: r2 => parseJElems fuel r2 (acc ++ [v])
      | ']' :: r2 => .ok (.arr (acc ++ [v]), r2)
      | _ => .error (.syntaxError "Expected comma or bracket after JSON array element")

/-- Parse the members of a JSON object (after the opening brace and
any whitespace), with JS object semantics on duplicate keys
(last value wins, first position kept). -/
def parseJMembers : Nat → List Char → List (String × JSVal) → Except JSError (JSVal × List Char)
  | 0, _, _ => .error (.syntaxError "JSON recursion depth exhausted")
  | fuel + 1, cs, acc =>
    match skipWs cs with
    | '"' :: r =>
      match parseJStr r with
      | .error e => .error e
      | .ok (k, r2) =>
        match skipWs r2 with
        | ':' :: r3 =>
          match parseJVal fuel r3 with
          | .error e => .error e
          | .ok (v, r4) =>
            let acc2 := setEntry acc (String.mk k) v
            match skipWs r4 with
            | ',' :: r5 => parseJMembers fuel r5 acc2
            | c :: r5 =>
              if c = rbrace then .ok (.obj acc2, r5)
              else .error (.syntaxError "Expected comma or brace after JSON member")
            | [] => .error (.syntaxError "Unexpected end of JSON input")
        | _ => .error (.syntaxError "Expected colon in JSON object")
    | _ => .error (.syntaxError "Expected property name in JSON object")

end

/-- Model of `JSON.parse`: parse one value with ample fuel and require
only whitespace to remain. -/
def jsonParse (s : String) : Except JSError JSVal :=
  match parseJVal (2 * s.data.length + 2) s.data with
  | .error e => .error e
  | .ok (v, rest) =>
    if skipWs rest = [] then .ok v
    else .error (.syntaxError "Unexpected non-whitespace character after JSON")

/-! ## The `Request` constructor and headers (platform model) -/

/-- Does the second list start with the first? (Kernel-computable
replacement for the library's byte-position-based test.) -/
def leadsWith : List Char → List Char → Bool
  | [], _ => true
  | _ :: _, [] => false
  | p :: ps, c :: cs => p = c && leadsWith ps cs

/-- `String.prototype.startsWith`: does `s` start with `pre`? -/
def strStartsWith (s pre : String) : Bool := leadsWith pre.data s.data

/-- Strip ASCII whitespace from both ends (for encoding labels). -/
def trimChars (cs : List Char) : List Char :=
  ((cs.dropWhile Char.isWhitespace).reverse.dropWhile Char.isWhitespace).reverse

/-- Byte-uppercasing of a method name. -/
def byteUpper (s : String) : String := String.mk (s.data.map Char.toUpper)

/-- Is the character allowed in an HTTP method token (RFC 7230 tchar)? -/
def isTokenChar (c : Char) : Bool :=
  c.isAlphanum || "!#$%&*+-.^_`|~".data.contains c || c = Char.ofNat 0x27

/-- Is the string a non-empty HTTP token, i.e. a syntactically valid
method for the `Request` constructor? -/
def isValidMethodToken (m : String) : Bool :=
  !m.isEmpty && m.data.all isTokenChar

/-- Is the method forbidden for `fetch` requests (the constructor
throws on these, case-insensitively)? -/
def forbiddenMethod (m : String) : Bool :=
  byteUpper m = "CONNECT" || byteUpper m = "TRACE" || byteUpper m = "TRACK"

/-- Method normalization in the `Request` constructor: byte-uppercase
when the method case-insensitively matches one of the six standard
methods, otherwise keep it as given. -/
def normalizeMethod (m : String) : String :=
  if byteUpper m = "DELETE" || byteUpper m = "GET" || byteUpper m = "HEAD"
      || byteUpper m = "OPTIONS" || byteUpper m = "POST" || byteUpper m = "PUT"
  then byteUpper m else m

/-- A standard `Request` value, reduced to the surface the code reads:
method, serialized URL, headers, and the body modelled by the eventual
outcome of draining it (`none` = no body). -/
structure WebRequest where
  method : String
  urlStr : String
  headers : List (String × String)
  body : Option (Except JSError (List Nat))
deriving Repr

/-- Model of `new Request(url, init)` on the features the code
exercises: parse the URL eagerly (`TypeError` on failure), validate the
method (token and forbidden-method checks), normalize it, and reject a
non-null body when the normalized method is GET or HEAD. The stored URL
is the serialization of the parse. Header-value validation is not
modelled. -/
def mkRequest (url : String) (method : String) (headers : List (String × String))
    (body : Option (Except JSError (List Nat))) : Except JSError WebRequest :=
  match parseURL url with
  | none => .error (.typeError "Failed to parse URL")
  | some u =>
    if !isValidMethodToken method || forbiddenMethod method then
      .error (.typeError "Invalid method")
    else
      let m := normalizeMethod method
      if body.isSome && (m = "GET" || m = "HEAD") then
        .error (.typeError "Request with GET or HEAD method cannot have body")
      else .ok ⟨m, serializeURL u, headers, body⟩

/-- Model of `Headers.get`: case-insensitive name lookup, first match;
`none` models `null` for an absent header. -/
def headersGet : List (String × String) → String → Option String
  | [], _ => none
  | (k, v) :: t, name => if byteUpper k = byteUpper name then some v else headersGet t name

/-! ## The repository's code (`src/index.ts`) -/

/-- The legacy Node.js request shape (`IncomingMessage`) as the code
reads it: `method`, `url` (possibly absent), `headers` (a plain object,
names lower-cased by Node), and the request object itself as a readable
byte stream, modelled by the eventual outcome of draining it — the
drained bytes or the stream's failure. -/
structure IncomingMessage where
  method : String
  url : Option String
  headers : List (String × String)
  bodyStream : Except JSError (List Nat)
deriving Repr

/-- The input boundary of every operation:
`IncomingMessage | Request`. -/
inductive ReqInput where
  | legacy (n : IncomingMessage) : ReqInput
  | standard (r : WebRequest) : ReqInput

/-- The completed absolute URL for a legacy request (index.ts line 19):
`url?.startsWith('http') ? url : ``http://localhost${url}`` `; an absent
`url` interpolates as the text "undefined". -/
def fullUrlOf (n : IncomingMessage) : String :=
  match n.url with
  | some u => if strStartsWith u "http" then u else "http://localhost" ++ u
  | none => "http://localhostundefined"

/-- Embedding of `toWebRequest` (index.ts lines 13–28): a standard
request is returned as-is; a legacy request is rebuilt through the
`Request` constructor, with no body attached exactly when the method is
exactly `GET` or exactly `HEAD`. -/
def toWebRequest : ReqInput → Except JSError WebRequest
  | .standard r => .ok r
  | .legacy n =>
    mkRequest (fullUrlOf n) n.method n.headers
      (if n.method = "GET" ∨ n.method = "HEAD" then none else some n.bodyStream)

/-- The body-parsing options (`IBodyOptions` imported from
`src/type.ts`, a file absent from the sources; modelled from the spec's
ParseOptions, §3, and the uses in index.ts). `onError` keeps only
whether a callback was supplied. -/
structure IBodyOptions where
  encoding : Option String := none
  raw : Bool := false
  contentType : Option String := none
  backContentType : Option String := none
  onError : Bool := false
deriving Repr

/-- JS `a || b` on a nullable string: absent and empty are falsy. -/
def jsOrStr (a : Option String) (b : String) : String :=
  match a with
  | none => b
  | some s => if s = "" then b else s

/-- The effective content type (index.ts line 95):
`options.contentType || webReq.headers.get('content-type') ||
options.backContentType || ''`. -/
def effectiveContentType (o : IBodyOptions) (w : WebRequest) : String :=
  jsOrStr o.contentType (jsOrStr (headersGet w.headers "content-type") (jsOrStr o.backContentType ""))

/-- Model of `request.arrayBuffer()`: the drained bytes — empty for an
absent body — or the stream's failure. -/
def arrayBufferOf (w : WebRequest) : Except JSError (List Nat) :=
  match w.body with
  | none => .ok []
  | some r => r

/-- Model of `new TextDecoder(label)`: the UTF-8 labels construct a
decoder (which decodes as UTF-8 with replacement, never throwing); any
other label is modelled as the constructor's `RangeError`. -/
def mkTextDecoder (label : String) : Except JSError Unit :=
  let l := String.mk ((trimChars label.data).map Char.toLower)
  if l = "utf-8" || l = "utf8" || l = "unicode-1-1-utf-8" then .ok ()
  else .error (.rangeError "Unknown encoding label")

/-- The try-block of `getBody` (index.ts lines 84–109): drain the body,
construct the decoder from `options.encoding || 'utf-8'`, decode,
return `{}` on empty text, `{raw}` when `options.raw` is set, and
otherwise dispatch on the effective content type by (case-sensitive)
`String.startsWith`. -/
def tryGetBody (w : WebRequest) (o : IBodyOptions) : Except JSError JSVal :=
  match arrayBufferOf w with
  | .error e => .error e
  | .ok ab =>
    match mkTextDecoder (jsOrStr o.encoding "utf-8") with
    | .error e => .error e
    | .ok _ =>
      let buffer := utf8DecodeStr ab
      if buffer = "" then .ok (.obj [])
      else if o.raw then .ok (.obj [("raw", .str buffer)])
      else
        let contentType := effectiveContentType o w
        if strStartsWith contentType "application/json" then jsonParse buffer
        else if strStartsWith contentType "application/x-www-form-urlencoded" then
          .ok (.obj ((objFromEntries (parseQSChars buffer.data)).map (fun p => (p.1, JSVal.str p.2))))
        else if strStartsWith contentType "text/plain" then .ok (.obj [("text", .str buffer)])
        else if strStartsWith contentType "multipart/form-data" then .ok (.obj [("raw", .str buffer)])
        else .ok (.obj [("raw", .str buffer)])

/-- Embedding of `getBody` (index.ts lines 79–116). `toWebRequest` runs
before the try/catch, so its errors escape; everything inside the try
is contained. The second result component records the errors passed to
`options.onError` (empty when no handler was supplied or nothing was
caught). -/
def getBody (req : ReqInput) (o : IBodyOptions) : Except JSError (JSVal × List JSError) :=
  match toWebRequest req with
  | .error e => .error e
  | .ok w =>
    match tryGetBody w o with
    | .ok v => .ok (v, [])
    | .error e => .ok (.obj [], if o.onError then [e] else [])

/-- Embedding of `getParams` (index.ts lines 48–63): normalize, parse
the canonical URL (`TypeError` escapes on failure) and return
`Object.fromEntries(searchParams)`. -/
def getParams (req : ReqInput) : Except JSError (List (String × String)) :=
  match toWebRequest req with
  | .error e => .error e
  | .ok w =>
    match parseURL w.urlStr with
    | none => .error (.typeError "Failed to parse URL")
    | some u => .ok (objFromEntries (searchParamsList u))

/-- Embedding of `bodyData` (index.ts lines 30–47): normalize once,
then params (errors escape) and parsed body combined. -/
def bodyData (req : ReqInput) (o : IBodyOptions) :
    Except JSError ((List (String × String)) × JSVal × List JSError) :=
  match toWebRequest req with
  | .error e => .error e
  | .ok w =>
    match getParams (.standard w) with
    | .error e => .error e
    | .ok ps =>
      match getBody (.standard w) o with
      | .error e => .error e
      | .ok (v, rep) => .ok (ps, v, rep)

/-! ## Helper lemmas about `takeWhile` / `dropWhile` and the URL parser -/

/-- The head of a non-empty `dropWhile` residue fails the predicate. -/
theorem dropWhile_head_false {α : Type} (p : α → Bool) :
    ∀ (l : List α) (c : α) (t : List α), l.dropWhile p = c :: t → p c = false := by
  intro l
  induction l with
  | nil => intro c t h; simp [List.dropWhile] at h
  | cons a l ih =>
    intro c t h
    by_cases hp : p a
    · rw [List.dropWhile_cons_of_pos hp] at h
      exact ih c t h
    · rw [List.dropWhile_cons_of_neg hp] at h
      injection h with h1 h2
      subst h1
      simpa using hp

/-- `takeWhile` and `dropWhile` slide over a block of characters that
all satisfy the predicate. -/
theorem takeWhile_dropWhile_append {α : Type} (p : α → Bool) :
    ∀ (l v : List α), (∀ c ∈ l, p c = true) →
      (l ++ v).takeWhile p = l ++ v.takeWhile p ∧ (l ++ v).dropWhile p = v.dropWhile p := by
  intro l
  induction l with
  | nil => intro v _; simp
  | cons a l ih =>
    intro v h
    have ha : p a = true := h a (List.mem_cons_self a l)
    have ht : ∀ c ∈ l, p c = true := fun c hc => h c (List.mem_cons_of_mem a hc)
    obtain ⟨h1, h2⟩ := ih v ht
    constructor
    · simp [List.takeWhile_cons, ha, h1]
    · simp [List.dropWhile_cons, ha, h2]

/-- A character the host scan accepts is accepted by the path scan. -/
theorem host_imp_path (c : Char) (h : hostChar c = true) : pathChar c = true := by
  simp only [hostChar, Bool.not_eq_true', Bool.or_eq_false_iff, decide_eq_false_iff_not] at h
  simp only [pathChar, Bool.not_eq_true', Bool.or_eq_false_iff, decide_eq_false_iff_not]
  tauto

/-- Every character skipped by the host scan is also skipped by the
path scan, so the two scans compose. -/
theorem dropWhile_path_host (v : List Char) :
    (v.dropWhile hostChar).dropWhile pathChar = v.dropWhile pathChar := by
  induction v with
  | nil => simp
  | cons a t ih =>
    by_cases hh : hostChar a
    · rw [List.dropWhile_cons_of_pos hh, List.dropWhile_cons_of_pos (host_imp_path a hh), ih]
    · rw [List.dropWhile_cons_of_neg hh]

/-- Inversion for `stripScheme`: a successful strip recovers the
input. -/
theorem stripScheme_some :
    ∀ (cs : List Char) (sch : String) (rest : List Char),
      stripScheme cs = some (sch, rest) → cs = sch.data ++ ':' :: '/' :: '/' :: rest := by
  intro cs sch rest h
  unfold stripScheme at h
  split at h
  · simp only [Option.some.injEq, Prod.mk.injEq] at h
    obtain ⟨h1, h2⟩ := h
    subst h1; subst h2; rfl
  · simp only [Option.some.injEq, Prod.mk.injEq] at h
    obtain ⟨h1, h2⟩ := h
    subst h1; subst h2; rfl
  · cases h

/-- `parseAfterHost` decomposes its input exactly into the returned
path, query and fragment. -/
theorem parseAfterHost_recover :
    ∀ (r2 path : List Char) (q f : Option (List Char)),
      parseAfterHost r2 = (path, q, f) →
      path ++ (match q with
               | some qq => '?' :: qq
               | none => ([] : List Char))
           ++ (match f with
               | some ff => '#' :: ff
               | none => ([] : List Char)) = r2 := by
  intro r2 path q f h
  have hsplit : r2.takeWhile pathChar ++ r2.dropWhile pathChar = r2 :=
    List.takeWhile_append_dropWhile pathChar r2
  unfold parseAfterHost at h
  split at h
  case _ qs heq =>
    have hq : qs.takeWhile queryChar ++ qs.dropWhile queryChar = qs :=
      List.takeWhile_append_dropWhile queryChar qs
    split at h
    case _ fs heq2 =>
      simp only [Prod.mk.injEq] at h
      obtain ⟨h1, h2, h3⟩ := h
      subst h1; subst h2; subst h3
      rw [heq2] at hq
      simp only []
      rw [List.append_assoc, List.cons_append, hq, ← heq]
      exact hsplit
    case _ hne =>
      simp only [Prod.mk.injEq] at h
      obtain ⟨h1, h2, h3⟩ := h
      subst h1; subst h2; subst h3
      have hdw : qs.dropWhile queryChar = [] := by
        cases hd : qs.dropWhile queryChar with
        | nil => rfl
        | cons c t =>
          have hc : queryChar c = false := dropWhile_head_false queryChar qs c t hd
          have hch : c = '#' := by
            simp only [queryChar, Bool.not_eq_false'] at hc
            simpa using hc
          subst hch
          exact (hne t hd).elim
      rw [hdw, List.append_nil] at hq
      simp only [List.append_nil]
      rw [hq, ← heq]
      exact hsplit
  case _ fs heq =>
    simp only [Prod.mk.injEq] at h
    obtain ⟨h1, h2, h3⟩ := h
    subst h1; subst h2; subst h3
    simp only [List.append_nil]
    rw [← heq]
    exact hsplit
  case _ hne1 hne2 =>
    simp only [Prod.mk.injEq] at h
    obtain ⟨h1, h2, h3⟩ := h
    subst h1; subst h2; subst h3
    have hdw : r2.dropWhile pathChar = [] := by
      cases hd : r2.dropWhile pathChar with
      | nil => rfl
      | cons c t =>
        have hc : pathChar c = false := dropWhile_head_false pathChar r2 c t hd
        have hch : c = '?' ∨ c = '#' := by
          simp only [pathChar, Bool.not_eq_false'] at hc
          simpa using hc
        cases hch with
        | inl hx => subst hx; exact (hne1 t hd).elim
        | inr hx => subst hx; exact (hne2 t hd).elim
    rw [hdw, List.append_nil] at hsplit
    simp only [List.append_nil]
    exact hsplit

/-- A successful URL parse serializes back to the exact input (the
model parser performs no normalization). -/
theorem serialize_of_parse :
    ∀ (cs : List Char) (u : URLRec), parseURLChars cs = some u → serializeURLChars u = cs := by
  intro cs u h
  unfold parseURLChars at h
  cases hs : stripScheme cs with
  | none => rw [hs] at h; cases h
  | some pr =>
    obtain ⟨sch, rest⟩ := pr
    rw [hs] at h
    simp only [] at h
    split at h
    · cases h
    case _ hhost =>
      cases hpa : parseAfterHost (rest.dropWhile hostChar) with
      | mk path qf =>
        obtain ⟨q, f⟩ := qf
        rw [hpa] at h
        simp only [Option.some.injEq] at h
        subst h
        have hrec := parseAfterHost_recover (rest.dropWhile hostChar) path q f hpa
        have hcs := stripScheme_some cs sch rest hs
        unfold serializeURLChars
        rw [hcs]
        have hsplit : rest.takeWhile hostChar ++ rest.dropWhile hostChar = rest :=
          List.takeWhile_append_dropWhile hostChar rest
        rcases q with _ | qq <;> rcases f with _ | ff <;>
          simp only [List.append_assoc, List.cons_append, List.nil_append,
            List.append_nil] at hrec ⊢ <;>
          rw [hrec, hsplit]

/-- Parsing is a retraction of serialization on parser outputs. -/
theorem parse_serialize_roundtrip :
    ∀ (cs : List Char) (u : URLRec), parseURLChars cs = some u →
      parseURLChars (serializeURLChars u) = some u := by
  intro cs u h
  rw [serialize_of_parse cs u h]
  exact h

/-- The query component `parseAfterHost` extracts, characterized by the
path-scan residue. -/
theorem parseAfterHost_query (r2 : List Char) :
    (parseAfterHost r2).2.1 =
      match r2.dropWhile pathChar with
      | '?' :: qs => some (qs.takeWhile queryChar)
      | _ => none := by
  unfold parseAfterHost
  split
  case _ qs heq =>
    rw [heq]
    rfl
  case _ fs heq =>
    rw [heq]
    rfl
  case _ hne1 hne2 =>
    split
    case _ qs heq => exact (hne1 qs heq).elim
    case _ => rfl

/-- Parsing `http://localhost` in front of a scheme-less path produces
exactly the query component of that path: the prepended block contains
no delimiter, so the host scan stops inside the original path and the
query scan proceeds as it would on the path alone. -/
theorem parse_localhost_query :
    ∀ (v : List Char) (u0 : URLRec),
      parseURLChars ("http://localhost".data ++ v) = some u0 →
      u0.query = queryOfPathChars v := by
  intro v u0 h
  have hall : ∀ c ∈ ("localhost".data : List Char), hostChar c = true := by decide
  obtain ⟨htake, hdrop⟩ := takeWhile_dropWhile_append hostChar "localhost".data v hall
  unfold parseURLChars at h
  have hs : stripScheme ("http://localhost".data ++ v) =
      some ("http", "localhost".data ++ v) := rfl
  rw [hs] at h
  simp only [htake, hdrop] at h
  rw [if_neg (by simp [show ("localhost".data : List Char) =
    'l' :: 'o' :: 'c' :: 'a' :: 'l' :: 'h' :: 'o' :: 's' :: 't' :: [] from rfl])] at h
  cases hpa : parseAfterHost (v.dropWhile hostChar) with
  | mk path qf =>
    obtain ⟨q, f⟩ := qf
    rw [hpa] at h
    simp only [Option.some.injEq] at h
    subst h
    have hq := parseAfterHost_query (v.dropWhile hostChar)
    rw [hpa, dropWhile_path_host] at hq
    exact hq

/-- Inversion for a successful `Request` construction: the URL parsed,
and the stored fields are the normalized method, the serialized URL,
and the given headers and body. -/
theorem mkRequest_ok_inv :
    ∀ (url m : String) (hs : List (String × String)) (b : Option (Except JSError (List Nat)))
      (w : WebRequest), mkRequest url m hs b = .ok w →
      ∃ u, parseURL url = some u ∧
        w.method = normalizeMethod m ∧ w.urlStr = serializeURL u ∧
        w.headers = hs ∧ w.body = b := by
  intro url m hs b w h
  unfold mkRequest at h
  cases hp : parseURL url with
  | none => rw [hp] at h; cases h
  | some u =>
    rw [hp] at h
    simp only [] at h
    split at h
    · cases h
    · split at h
      · cases h
      · simp only [Except.ok.injEq] at h
        subst h
        exact ⟨u, rfl, rfl, rfl, rfl, rfl⟩

/-- A `Request` construction with a parseable URL, a valid
non-forbidden method, and no body conflict, succeeds and stores the
normalized method and serialized URL. -/
theorem mkRequest_eq_ok :
    ∀ (url m : String) (hs : List (String × String)) (b : Option (Except JSError (List Nat)))
      (u : URLRec), parseURL url = some u →
      isValidMethodToken m = true → forbiddenMethod m = false →
      (b.isSome = false ∨ (normalizeMethod m ≠ "GET" ∧ normalizeMethod m ≠ "HEAD")) →
      mkRequest url m hs b = .ok ⟨normalizeMethod m, serializeURL u, hs, b⟩ := by
  intro url m hs b u hp hv hf hb
  unfold mkRequest
  simp only [hp]
  rcases hb with hb | ⟨h1, h2⟩
  · rw [if_neg (by simp [hv, hf]), if_neg (by simp [hb])]
  · rw [if_neg (by simp [hv, hf]), if_neg (by simp [h1, h2])]

/-- A `Request` construction with a body on a method that normalizes
to GET or HEAD throws the constructor's `TypeError`. -/
theorem mkRequest_eq_error_body :
    ∀ (url m : String) (hs : List (String × String)) (b : Option (Except JSError (List Nat)))
      (u : URLRec), parseURL url = some u →
      isValidMethodToken m = true → forbiddenMethod m = false →
      b.isSome = true → (normalizeMethod m = "GET" ∨ normalizeMethod m = "HEAD") →
      mkRequest url m hs b =
        .error (.typeError "Request with GET or HEAD method cannot have body") := by
  intro url m hs b u hp hv hf hb1 hb2
  unfold mkRequest
  simp only [hp]
  rw [if_neg (by simp [hv, hf])]
  rw [if_pos (by rcases hb2 with h | h <;> simp [hb1, h])]

/-! ## Entry-list lemmas (JS object semantics) -/

/-- Looking up after a `setEntry`: the set key answers the new value,
any other key is unchanged. -/
theorem getEntry_setEntry {α : Type} :
    ∀ (l : List (String × α)) (k : String) (v : α) (k' : String),
      getEntry (setEntry l k v) k' = if k = k' then some v else getEntry l k' := by
  intro l
  induction l with
  | nil =>
    intro k v k'
    simp [setEntry, getEntry]
  | cons p t ih =>
    intro k v k'
    obtain ⟨k0, v0⟩ := p
    by_cases h0 : k0 = k
    · subst h0
      simp only [setEntry, if_pos rfl, getEntry]
      by_cases h1 : k0 = k'
      · simp [h1]
      · simp [h1]
    · simp only [setEntry, if_neg h0, getEntry]
      by_cases h1 : k0 = k'
      · subst h1
        have hne : k ≠ k0 := fun hx => h0 hx.symm
        simp [hne, ih]
      · simp only [if_neg h1]
        exact ih k v k'

/-- Folding pair assignments over an accumulator: the result of a
lookup is the last value the pair list carries for the key, falling
back to the accumulator. -/
theorem getEntry_foldl :
    ∀ (ps : List (String × String)) (acc : List (String × String)) (k : String),
      getEntry (ps.foldl (fun a p => setEntry a p.1 p.2) acc) k =
        match lastVal ps k with
        | some w => some w
        | none => getEntry acc k := by
  intro ps
  induction ps with
  | nil => intro acc k; simp [lastVal]
  | cons p t ih =>
    intro acc k
    obtain ⟨k0, v0⟩ := p
    simp only [List.foldl_cons, lastVal]
    rw [ih]
    cases hl : lastVal t k with
    | some w => simp
    | none =>
      simp only []
      rw [getEntry_setEntry]
      by_cases h : k0 = k
      · simp [h]
      · simp [h]

/-- Equation lemma: `getBody` after a successful normalization is the
try/catch over `tryGetBody`. -/
theorem getBody_eq (req : ReqInput) (o : IBodyOptions) (w : WebRequest)
    (hw : toWebRequest req = .ok w) :
    getBody req o =
      match tryGetBody w o with
      | .ok v => .ok (v, [])
      | .error e => .ok (.obj [], if o.onError then [e] else []) := by
  unfold getBody
  rw [hw]

/-- Equation lemma: `toWebRequest` on a legacy input. -/
theorem toWebRequest_legacy (n : IncomingMessage) :
    toWebRequest (.legacy n) =
      mkRequest (fullUrlOf n) n.method n.headers
        (if n.method = "GET" ∨ n.method = "HEAD" then none else some n.bodyStream) := rfl

/-! ## Concrete requests used by witnesses and counterexamples -/

/-- A standard POST request declaring lower-case `application/json`
with body text `{"a":1}`. -/
def reqJsonLower : WebRequest :=
  ⟨"POST", "http://localhost/", [("content-type", "application/json")],
    some (.ok (strToBytes "\x7b\"a\":1\x7d"))⟩

/-- The same request except the declared type is `Application/JSON`
(differing only in letter case). -/
def reqJsonUpper : WebRequest :=
  ⟨"POST", "http://localhost/", [("content-type", "Application/JSON")],
    some (.ok (strToBytes "\x7b\"a\":1\x7d"))⟩

/-- A standard JSON request whose body text `true` is a JSON scalar,
not an object. -/
def reqJsonScalar : WebRequest :=
  ⟨"POST", "http://localhost/", [("content-type", "application/json")],
    some (.ok (strToBytes "true"))⟩

/-- A standard JSON request with the malformed body text `{a:`. -/
def reqJsonBroken : WebRequest :=
  ⟨"POST", "http://localhost/", [("content-type", "application/json")],
    some (.ok (strToBytes "\x7ba:"))⟩

/-- A standard JSON request with an empty body. -/
def reqEmptyBody : WebRequest :=
  ⟨"POST", "http://localhost/", [("content-type", "application/json")], some (.ok [])⟩

/-- A standard `text/plain` request with body text `hello`. -/
def reqTextPlain : WebRequest :=
  ⟨"POST", "http://localhost/", [("content-type", "text/plain; charset=utf-8")],
    some (.ok (strToBytes "hello"))⟩

/-- Options supplying only an `onError` handler. -/
def optOnError : IBodyOptions := ⟨none, false, none, none, true⟩

/-! ## Claims -/

/-- C1, counterexample: `getBody` does NOT always resolve — on a legacy
request whose URL `http://` is malformed, `toWebRequest` (which runs
before the try/catch) throws, and the error escapes `getBody`. -/
theorem getBody_rejects_on_malformed_url_cex :
    getBody (.legacy ⟨"GET", some "http://", [], .ok []⟩) {} =
      .error (.typeError "Failed to parse URL") := rfl

/-- C1 (amended): for every request whose normalization succeeds and
every options value, `getBody` resolves: a try-block success is
returned with no `onError` call, and any error raised inside the
try-block — draining the stream, constructing the decoder, decoding,
or parsing (including JSON syntax errors) — is caught, `options.onError`
receives it exactly when a handler is provided, and the call resolves
to the empty object either way. Errors thrown by normalization itself,
however, escape (see the counterexample). -/
theorem getBody_error_containment :
    ∀ (req : ReqInput) (o : IBodyOptions) (w : WebRequest), toWebRequest req = .ok w →
      (∃ p, getBody req o = .ok p) ∧
      (∀ v, tryGetBody w o = .ok v → getBody req o = .ok (v, [])) ∧
      (∀ e, tryGetBody w o = .error e →
        getBody req o = .ok (.obj [], if o.onError then [e] else [])) := by
  intro req o w h
  unfold getBody
  rw [h]
  refine ⟨?_, ?_, ?_⟩
  · cases ht : tryGetBody w o with
    | ok v => exact ⟨(v, []), by simp [ht]⟩
    | error e => exact ⟨(.obj [], if o.onError then [e] else []), by simp [ht]⟩
  · intro v hv
    simp [hv]
  · intro e he
    simp [he]

/-- C1 witness: malformed JSON with an `onError` handler — the error is
caught, reported to the handler, and the call resolves to `{}`. -/
theorem getBody_error_containment_witness :
    getBody (.standard reqJsonBroken) optOnError =
      .ok (.obj [], [.syntaxError "Expected property name in JSON object"]) :=
  (getBody_error_containment (.standard reqJsonBroken) optOnError reqJsonBroken rfl).2.2
    (.syntaxError "Expected property name in JSON object") rfl

/-- C2, counterexample: normalization itself raises on a legacy input
with the malformed URL `http://` — the failure is not deferred to the
Parameter Extractor. -/
theorem toWebRequest_raises_on_malformed_url_cex :
    toWebRequest (.legacy ⟨"POST", some "http://", [], .ok []⟩) =
      .error (.typeError "Failed to parse URL") := rfl

/-- C2 (amended): normalization never raises for standard `Request`
inputs; for a legacy input it raises already in `toWebRequest` when the
completed URL cannot be parsed (the `Request` constructor parses
eagerly); and whenever normalization of a legacy input succeeds,
`getParams` on the canonical request cannot fail, because the canonical
URL is the serialization of a successful parse and re-parses. So a
malformed URL surfaces in `toWebRequest`, not in `getParams`. -/
theorem normalization_error_locus :
    (∀ r : WebRequest, toWebRequest (.standard r) = .ok r) ∧
    (∀ n : IncomingMessage, parseURL (fullUrlOf n) = none →
      ∃ e, toWebRequest (.legacy n) = .error e) ∧
    (∀ (n : IncomingMessage) (w : WebRequest), toWebRequest (.legacy n) = .ok w →
      ∃ ps, getParams (.standard w) = .ok ps) := by
  refine ⟨fun r => rfl, ?_, ?_⟩
  · intro n hp
    refine ⟨.typeError "Failed to parse URL", ?_⟩
    unfold toWebRequest mkRequest
    simp only [hp]
  · intro n w h
    unfold toWebRequest at h
    obtain ⟨u, hp, hm, hu, hh, hb⟩ := mkRequest_ok_inv _ _ _ _ _ h
    refine ⟨objFromEntries (searchParamsList u), ?_⟩
    unfold getParams
    simp only [toWebRequest]
    rw [hu]
    have hrt : parseURL (serializeURL u) = some u :=
      parse_serialize_roundtrip _ u hp
    simp only [hrt]

/-- C2 witness: a legacy request with a relative URL normalizes, and
`getParams` on the canonical request succeeds. -/
theorem normalization_error_locus_witness :
    ∃ ps, getParams (.standard ⟨"POST", "http://localhost/x?a=1&b=2", [], some (.ok [])⟩) =
      .ok ps :=
  normalization_error_locus.2.2 ⟨"POST", some "/x?a=1&b=2", [], .ok []⟩
    ⟨"POST", "http://localhost/x?a=1&b=2", [], some (.ok [])⟩ rfl

/-- C3, counterexample: for the method `get` (case-insensitively equal
but not exactly `GET`), the code attaches the body stream, and the
`Request` constructor — which normalizes `get` to `GET` — then rejects
the construction, so no canonical request with an attached stream is
produced. -/
theorem toWebRequest_lowercase_get_cex :
    toWebRequest (.legacy ⟨"get", some "/x", [], .ok [104, 105]⟩) =
      .error (.typeError "Request with GET or HEAD method cannot have body") := rfl

/-- C3 (amended): on any legacy input whose completed URL parses —
regardless of any body data present — if the method is exactly `GET` or
exactly `HEAD`, the canonical request has no body; for any other valid
non-forbidden method, if the method does not normalize to GET/HEAD the
legacy body stream is attached, while a method that normalizes to
GET/HEAD (e.g. `get`) makes the constructor reject, so normalization
throws instead of attaching the stream. -/
theorem toWebRequest_body_attachment :
    ∀ (n : IncomingMessage) (u : URLRec), parseURL (fullUrlOf n) = some u →
      ((n.method = "GET" ∨ n.method = "HEAD") →
        toWebRequest (.legacy n) = .ok ⟨n.method, serializeURL u, n.headers, none⟩) ∧
      (¬(n.method = "GET" ∨ n.method = "HEAD") →
        isValidMethodToken n.method = true → forbiddenMethod n.method = false →
        ((normalizeMethod n.method ≠ "GET" ∧ normalizeMethod n.method ≠ "HEAD") →
          toWebRequest (.legacy n) =
            .ok ⟨normalizeMethod n.method, serializeURL u, n.headers, some n.bodyStream⟩) ∧
        ((normalizeMethod n.method = "GET" ∨ normalizeMethod n.method = "HEAD") →
          toWebRequest (.legacy n) =
            .error (.typeError "Request with GET or HEAD method cannot have body"))) := by
  intro n u hp
  constructor
  · intro hm
    rw [toWebRequest_legacy, if_pos hm]
    rcases hm with h | h
    · rw [h]
      have hmk := mkRequest_eq_ok (fullUrlOf n) "GET" n.headers none u
        hp (by decide) (by decide) (Or.inl rfl)
      rw [hmk]
      rfl
    · rw [h]
      have hmk := mkRequest_eq_ok (fullUrlOf n) "HEAD" n.headers none u
        hp (by decide) (by decide) (Or.inl rfl)
      rw [hmk]
      rfl
  · intro hm hv hf
    rw [toWebRequest_legacy, if_neg hm]
    constructor
    · rintro ⟨h1, h2⟩
      exact mkRequest_eq_ok _ _ _ _ u hp hv hf (Or.inr ⟨h1, h2⟩)
    · intro h12
      exact mkRequest_eq_error_body _ _ _ _ u hp hv hf rfl h12

/-- C3 witness: a legacy `PATCH` request gets its body stream attached
to the canonical request. -/
theorem toWebRequest_body_attachment_witness :
    toWebRequest (.legacy ⟨"PATCH", some "/y", [], .ok [1, 2]⟩) =
      .ok ⟨"PATCH", "http://localhost/y", [], some (.ok [1, 2])⟩ := by
  have h := ((toWebRequest_body_attachment ⟨"PATCH", some "/y", [], .ok [1, 2]⟩
      ⟨"http", "localhost".data, "/y".data, none, none⟩ rfl).2
      (by decide) (by decide) (by decide)).1 (by decide)
  exact h

/-- C4: for every legacy request whose `url` does not start with
`http`, normalization synthesizes exactly `http://localhost` followed
by that url, and `getParams` on the normalized request yields the
mapping obtained from the query component of the original relative
path (same urlencoded parse, same last-value-wins folding). -/
theorem getParams_relative_url_query :
    ∀ (n : IncomingMessage) (u : String) (w : WebRequest),
      n.url = some u → strStartsWith u "http" = false →
      toWebRequest (.legacy n) = .ok w →
      w.urlStr = "http://localhost" ++ u ∧
      getParams (.standard w) =
        .ok (objFromEntries (parseQSChars ((queryOfPathChars u.data).getD []))) := by
  intro n u w hu hsw h
  have hfull : fullUrlOf n = "http://localhost" ++ u := by
    unfold fullUrlOf
    rw [hu]
    simp [hsw]
  rw [toWebRequest_legacy, hfull] at h
  obtain ⟨u0, hp, hm, hurl, hh, hb⟩ := mkRequest_ok_inv _ _ _ _ _ h
  have hpc : parseURLChars ("http://localhost".data ++ u.data) = some u0 := hp
  have hser : serializeURLChars u0 = "http://localhost".data ++ u.data :=
    serialize_of_parse _ _ hpc
  have hq : u0.query = queryOfPathChars u.data := parse_localhost_query u.data u0 hpc
  constructor
  · rw [hurl]
    unfold serializeURL
    rw [hser]
    rfl
  · unfold getParams
    simp only [toWebRequest]
    rw [hurl]
    have hrt : parseURL (serializeURL u0) = some u0 := parse_serialize_roundtrip _ u0 hpc
    simp only [hrt]
    unfold searchParamsList
    rw [hq]

/-- C4 witness: the legacy url `/x?a=1&b=2` is completed to
`http://localhost/x?a=1&b=2`, and `getParams` returns the query of the
relative path, concretely `{a: "1", b: "2"}`. -/
theorem getParams_relative_url_query_witness :
    ((⟨"POST", "http://localhost/x?a=1&b=2", [], some (.ok [])⟩ : WebRequest).urlStr =
      "http://localhost" ++ "/x?a=1&b=2" ∧
    getParams (.standard ⟨"POST", "http://localhost/x?a=1&b=2", [], some (.ok [])⟩) =
      .ok (objFromEntries (parseQSChars ((queryOfPathChars "/x?a=1&b=2".data).getD [])))) ∧
    objFromEntries (parseQSChars ((queryOfPathChars "/x?a=1&b=2".data).getD [])) =
      [("a", "1"), ("b", "2")] :=
  ⟨getParams_relative_url_query ⟨"POST", some "/x?a=1&b=2", [], .ok []⟩ "/x?a=1&b=2"
    ⟨"POST", "http://localhost/x?a=1&b=2", [], some (.ok [])⟩ rfl rfl rfl, rfl⟩

/-- C5, counterexample: the dispatch is case-SENSITIVE — the declared
type `Application/JSON` does not select the JSON decoder as the claim's
case-insensitive reading would require; it falls through to the raw
fallback, while the lower-case `application/json` parses the body. -/
theorem content_type_case_sensitive_cex :
    getBody (.standard reqJsonUpper) {} = .ok (.obj [("raw", .str "\x7b\"a\":1\x7d")], []) ∧
    getBody (.standard reqJsonLower) {} = .ok (.obj [("a", .num "1")], []) ∧
    JSVal.obj [("raw", .str "\x7b\"a\":1\x7d")] ≠ JSVal.obj [("a", .num "1")] := by
  refine ⟨rfl, rfl, ?_⟩
  intro h
  simp only [JSVal.obj.injEq, List.cons.injEq, Prod.mk.injEq] at h
  exact absurd h.1.1 (by decide)

/-- C5 (amended): for every non-empty decoded body text with
`options.raw` unset, the try-block dispatches on the effective content
type by a case-sensitive prefix match (`String.prototype.startsWith`,
so parameters such as `; charset=utf-8` still match, but a type
differing in letter case does not): `application/json` prefixes select
the JSON decoder, `application/x-www-form-urlencoded` the urlencoded
decoder, `text/plain` yields the text record, and `multipart/form-data`
and every other (or absent) type yield the raw record. -/
theorem tryGetBody_dispatch_table :
    ∀ (w : WebRequest) (o : IBodyOptions) (ab : List Nat) (s : String),
      arrayBufferOf w = .ok ab → mkTextDecoder (jsOrStr o.encoding "utf-8") = .ok () →
      utf8DecodeStr ab = s → s ≠ "" → o.raw = false →
      tryGetBody w o =
        (if strStartsWith (effectiveContentType o w) "application/json" then jsonParse s
         else if strStartsWith (effectiveContentType o w) "application/x-www-form-urlencoded" then
           .ok (.obj ((objFromEntries (parseQSChars s.data)).map (fun p => (p.1, JSVal.str p.2))))
         else if strStartsWith (effectiveContentType o w) "text/plain" then
           .ok (.obj [("text", .str s)])
         else .ok (.obj [("raw", .str s)])) := by
  intro w o ab s hab hdec hs hne hraw
  unfold tryGetBody
  simp only [hab, hdec]
  rw [hs]
  rw [if_neg hne]
  rw [hraw]
  simp only [Bool.false_eq_true, if_false]
  by_cases h1 : strStartsWith (effectiveContentType o w) "application/json" = true
  · simp [h1]
  · by_cases h2 :
      strStartsWith (effectiveContentType o w) "application/x-www-form-urlencoded" = true
    · simp [h1, h2]
    · by_cases h3 : strStartsWith (effectiveContentType o w) "text/plain" = true
      · simp [h1, h2, h3]
      · by_cases h4 : strStartsWith (effectiveContentType o w) "multipart/form-data" = true
        · simp [h1, h2, h3, h4]
        · simp [h1, h2, h3, h4]

/-- C5 witness: a `text/plain; charset=utf-8` body dispatches to the
text record. -/
theorem tryGetBody_dispatch_table_witness :
    tryGetBody reqTextPlain {} = .ok (.obj [("text", .str "hello")]) := by
  have h := tryGetBody_dispatch_table reqTextPlain {} (strToBytes "hello") "hello"
    rfl rfl rfl (by decide) rfl
  exact h.trans (by rfl)

/-- C6: the effective content type used for dispatch is the first
non-empty value among `options.contentType`, the request's
`content-type` header, `options.backContentType`, and the empty string
— in particular `backContentType` is consulted only when both the
override and the header are absent or empty. -/
theorem effectiveContentType_precedence :
    ∀ (o : IBodyOptions) (w : WebRequest),
      (∀ s, o.contentType = some s → s ≠ "" → effectiveContentType o w = s) ∧
      ((o.contentType = none ∨ o.contentType = some "") →
        ∀ s, headersGet w.headers "content-type" = some s → s ≠ "" →
          effectiveContentType o w = s) ∧
      ((o.contentType = none ∨ o.contentType = some "") →
        (headersGet w.headers "content-type" = none ∨
          headersGet w.headers "content-type" = some "") →
        ∀ s, o.backContentType = some s → s ≠ "" → effectiveContentType o w = s) ∧
      ((o.contentType = none ∨ o.contentType = some "") →
        (headersGet w.headers "content-type" = none ∨
          headersGet w.headers "content-type" = some "") →
        (o.backContentType = none ∨ o.backContentType = some "") →
        effectiveContentType o w = "") := by
  intro o w
  unfold effectiveContentType jsOrStr
  refine ⟨?_, ?_, ?_, ?_⟩
  · intro s hct hne
    rw [hct]
    simp [hne]
  · rintro (hct | hct) s hh hne <;> rw [hct, hh] <;> simp [hne]
  · rintro (hct | hct) (hh | hh) s hb hne <;> rw [hct, hh, hb] <;> simp [hne]
  · rintro (hct | hct) (hh | hh) (hb | hb) <;> rw [hct, hh, hb] <;> simp

/-- C6 witness: with no override and no header, a non-empty
`backContentType` becomes the effective content type. -/
theorem effectiveContentType_precedence_witness :
    effectiveContentType ⟨none, false, none, some "text/plain", false⟩
      ⟨"POST", "http://localhost/", [], none⟩ = "text/plain" :=
  (effectiveContentType_precedence ⟨none, false, none, some "text/plain", false⟩
    ⟨"POST", "http://localhost/", [], none⟩).2.2.1 (Or.inl rfl) (Or.inl rfl)
    "text/plain" rfl (by decide)

/-- C7: whenever the drained body decodes to the empty text — whatever
the options, including `raw` and any content type — `getBody` returns
the empty object with no handler call and no dispatch. -/
theorem getBody_empty_text_empty_obj :
    ∀ (req : ReqInput) (o : IBodyOptions) (w : WebRequest) (ab : List Nat),
      toWebRequest req = .ok w → arrayBufferOf w = .ok ab →
      mkTextDecoder (jsOrStr o.encoding "utf-8") = .ok () → utf8DecodeStr ab = "" →
      getBody req o = .ok (.obj [], []) := by
  intro req o w ab hw hab hdec hs
  unfold getBody
  rw [hw]
  have ht : tryGetBody w o = .ok (.obj []) := by
    unfold tryGetBody
    simp only [hab, hdec]
    rw [hs]
    simp
  simp [ht]

/-- C7 witness: an empty body with `raw` set and a JSON content type
still yields `{}`. -/
theorem getBody_empty_text_empty_obj_witness :
    getBody (.standard reqEmptyBody) ⟨none, true, some "application/json", none, true⟩ =
      .ok (.obj [], []) :=
  getBody_empty_text_empty_obj (.standard reqEmptyBody)
    ⟨none, true, some "application/json", none, true⟩ reqEmptyBody [] rfl rfl rfl rfl

/-- C8: `getParams` on a request for `/x?a=1&a=2&b=hello` yields
exactly `{a: "2", b: "hello"}`, and in general a lookup in the folded
object equals the LAST value the query pair list carries for the key
(last-value-wins on duplicates). -/
theorem getParams_last_value_wins :
    getParams (.legacy ⟨"GET", some "/x?a=1&a=2&b=hello", [], .ok []⟩) =
      .ok [("a", "2"), ("b", "hello")] ∧
    ∀ (ps : List (String × String)) (k : String),
      getEntry (objFromEntries ps) k = lastVal ps k := by
  constructor
  · rfl
  · intro ps k
    unfold objFromEntries
    rw [getEntry_foldl]
    cases lastVal ps k <;> simp [getEntry]

/-- C9, counterexample: with a declared JSON type and body text `true`,
`getBody` resolves to the JSON scalar `true`, which is none of the five
record shapes the claim allows (it is not an object at all). -/
theorem getBody_json_scalar_cex :
    getBody (.standard reqJsonScalar) {} = .ok (.bool true, []) ∧
    (JSVal.bool true).isObj = false :=
  ⟨rfl, rfl⟩

/-- C9 (amended): every value `getBody` resolves to is the empty
object, a raw record, a text record, a flat string-to-string mapping,
or — on the JSON branch — exactly some output of `JSON.parse`, which
can be any JSON value (scalar, array or object), not only a mapping. -/
theorem getBody_result_shapes :
    ∀ (req : ReqInput) (o : IBodyOptions) (v : JSVal) (rep : List JSError),
      getBody req o = .ok (v, rep) →
      v = .obj [] ∨ (∃ s, v = .obj [("raw", .str s)]) ∨ (∃ s, v = .obj [("text", .str s)]) ∨
      (∃ ps : List (String × String), v = .obj (ps.map (fun p => (p.1, JSVal.str p.2)))) ∨
      (∃ (s : String) (j : JSVal), jsonParse s = .ok j ∧ v = j) := by
  intro req o v rep h
  cases hw : toWebRequest req with
  | error e => unfold getBody at h; rw [hw] at h; cases h
  | ok w =>
    rw [getBody_eq req o w hw] at h
    cases ht : tryGetBody w o with
    | error e =>
      simp only [ht, Except.ok.injEq, Prod.mk.injEq] at h
      exact Or.inl h.1.symm
    | ok v0 =>
      simp only [ht, Except.ok.injEq, Prod.mk.injEq] at h
      obtain ⟨hv, _⟩ := h
      subst hv
      unfold tryGetBody at ht
      cases hab : arrayBufferOf w with
      | error e => rw [hab] at ht; cases ht
      | ok ab =>
        rw [hab] at ht
        cases hdec : mkTextDecoder (jsOrStr o.encoding "utf-8") with
        | error e => rw [hdec] at ht; simp at ht
        | ok uu =>
          rw [hdec] at ht
          simp only [] at ht
          split at ht
          · simp only [Except.ok.injEq] at ht
            exact Or.inl ht.symm
          · split at ht
            · simp only [Except.ok.injEq] at ht
              exact Or.inr (Or.inl ⟨utf8DecodeStr ab, ht.symm⟩)
            · split at ht
              · exact Or.inr (Or.inr (Or.inr (Or.inr ⟨utf8DecodeStr ab, v0, ht, rfl⟩)))
              · split at ht
                · simp only [Except.ok.injEq] at ht
                  exact Or.inr (Or.inr (Or.inr (Or.inl
                    ⟨objFromEntries (parseQSChars (utf8DecodeStr ab).data), ht.symm⟩)))
                · split at ht
                  · simp only [Except.ok.injEq] at ht
                    exact Or.inr (Or.inr (Or.inl ⟨utf8DecodeStr ab, ht.symm⟩))
                  · split at ht
                    · simp only [Except.ok.injEq] at ht
                      exact Or.inr (Or.inl ⟨utf8DecodeStr ab, ht.symm⟩)
                    · simp only [Except.ok.injEq] at ht
                      exact Or.inr (Or.inl ⟨utf8DecodeStr ab, ht.symm⟩)

/-- C9 witness: the scalar result of the JSON branch inhabits the
amended shape disjunction through the `JSON.parse`-output disjunct. -/
theorem getBody_result_shapes_witness :
    JSVal.bool true = .obj [] ∨ (∃ s, JSVal.bool true = .obj [("raw", .str s)]) ∨
    (∃ s, JSVal.bool true = .obj [("text", .str s)]) ∨
    (∃ ps : List (String × String),
      JSVal.bool true = .obj (ps.map (fun p => (p.1, JSVal.str p.2)))) ∨
    (∃ (s : String) (j : JSVal), jsonParse s = .ok j ∧ JSVal.bool true = j) :=
  getBody_result_shapes (.standard reqJsonScalar) {} (.bool true) [] rfl

/-- C10: in any call that resolves, `onError` is invoked at most once;
it is invoked only when an error was caught in the try-block and the
result is the empty object; and a run that completes without a caught
error never invokes it. -/
theorem getBody_onError_at_most_once :
    ∀ (req : ReqInput) (o : IBodyOptions) (p : JSVal × List JSError),
      getBody req o = .ok p →
      p.2.length ≤ 1 ∧
      (p.2 ≠ [] → o.onError = true ∧ p.1 = .obj []) ∧
      (p.2 = [] ∨ ∃ (w : WebRequest) (e : JSError),
        toWebRequest req = .ok w ∧ tryGetBody w o = .error e ∧ p.2 = [e]) := by
  intro req o p h
  cases hw : toWebRequest req with
  | error e => unfold getBody at h; rw [hw] at h; cases h
  | ok w =>
    rw [getBody_eq req o w hw] at h
    cases ht : tryGetBody w o with
    | ok v =>
      simp only [ht, Except.ok.injEq] at h
      subst h
      exact ⟨by simp, by simp, Or.inl rfl⟩
    | error e =>
      simp only [ht, Except.ok.injEq] at h
      subst h
      by_cases ho : o.onError = true
      · exact ⟨by simp [ho], fun _ => ⟨ho, by simp⟩, Or.inr ⟨w, e, rfl, ht, by simp [ho]⟩⟩
      · have ho' : o.onError = false := by simpa using ho
        exact ⟨by simp [ho'], by simp [ho'], Or.inl (by simp [ho'])⟩

/-- C10 witness: a caught JSON syntax error with a handler supplied —
the report list has exactly one entry and the result is `{}`. -/
theorem getBody_onError_at_most_once_witness :
    (JSVal.obj [], [JSError.syntaxError "Expected property name in JSON object"]).2.length ≤ 1 ∧
    ((JSVal.obj [], [JSError.syntaxError "Expected property name in JSON object"]).2 ≠ [] →
      optOnError.onError = true ∧
      (JSVal.obj [], [JSError.syntaxError "Expected property name in JSON object"]).1 =
        .obj []) ∧
    ((JSVal.obj [], [JSError.syntaxError "Expected property name in JSON object"]).2 = [] ∨
      ∃ (w : WebRequest) (e : JSError),
        toWebRequest (.standard reqJsonBroken) = .ok w ∧
        tryGetBody w optOnError = .error e ∧
        (JSVal.obj [], [JSError.syntaxError "Expected property name in JSON object"]).2 = [e]) :=
  getBody_onError_at_most_once (.standard reqJsonBroken) optOnError
    (JSVal.obj [], [JSError.syntaxError "Expected property name in JSON object"]) rfl
